import Mathlib

/-!
# Consent / request-arbitration core — shallow embedding

This file embeds the `ConsentService` of the wallet's consent subsystem
(`lib/services/consentService`): the durable request queue, the in-memory
completion-handle registry (`waits`), the admission gate of `requestConsent`,
`clearRequests`, `processRequest` / `processRequestPost`, and the
`WATCH_ASSET` branch of the side-effect dispatcher.

Modelling conventions:
* The persisted `SESSION_STORE` value under `StoreKey.CONSENT_REQUESTS` is the
  `store` field of `ServiceState` (`none` = key absent).
* The `waits` map `id → [resolve, reject]` is modelled as the list of ids that
  currently hold a registered completion handle; invoking a handle's resolve
  or reject callback is recorded as an `Event` in the returned event list,
  as is showing a browser notification.
* External collaborators (`WALLET_SERVICE` lookups, the signing provider, the
  non-`WATCH_ASSET` dispatch targets) are inputs: an environment of lookup
  functions, and the outcomes of the awaited sub-steps passed as parameters.
* `setBadge` only mirrors the queue length to the browser badge and touches no
  service state, so it is not modelled.
-/

/-- `ConsentType` enumeration from the source. -/
inductive ConsentType where
  | unlock
  | requestPermission
  | transaction
  | signMsg
  | signTypedData
  | watchAsset
  | addNetwork
  | switchNetwork
deriving DecidableEq, Repr

/-- `accountId: number | number[]` — a single account id or a list of ids. -/
inductive AccountId where
  | single (id : Nat)
  | multi (ids : List Nat)
deriving DecidableEq, Repr

/-- A queued consent request (`ConsentRequest` in the source). The `payload`
is `any` in the source; it is carried as opaque data here, the one payload
field a modelled code path reads (the `WATCH_ASSET` token) being passed
explicitly to the dispatcher. -/
structure ConsentRequest where
  id : Nat
  networkId : Option Nat
  accountId : AccountId
  type : ConsentType
  origin : Option String
  payload : String
deriving DecidableEq, Repr

/-- `Omit<ConsentRequest, 'id'>` — the argument of `requestConsent`. -/
structure ConsentRequestNoId where
  networkId : Option Nat
  accountId : AccountId
  type : ConsentType
  origin : Option String
  payload : String
deriving DecidableEq, Repr

def ConsentRequestNoId.withId (r : ConsentRequestNoId) (id : Nat) : ConsentRequest :=
  { id := id, networkId := r.networkId, accountId := r.accountId, type := r.type,
    origin := r.origin, payload := r.payload }

/-- Errors thrown by the modelled code paths (`eth-rpc-errors` constructors and
`assert` failures). -/
inductive ConsentError where
  | userRejected
  | invalidRequest (msg : String)
  | assertionFailed
  | other (msg : String)
deriving DecidableEq, Repr

/-- Message text of `ethErrors.provider.userRejectedRequest()`. -/
def userRejectedMessage : String := "User rejected the request."

/-- The string an error renders to (`err.toString()` on the modelled errors). -/
def errString : ConsentError → String
  | .userRejected => userRejectedMessage
  | .invalidRequest m => m
  | .assertionFailed => "AssertionError"
  | .other m => m

/-- `hay.includes(needle)` — substring containment on strings. -/
def strIncludes (hay needle : String) : Bool :=
  decide (needle.toList <:+: hay.toList)

/-- The check `err.toString().includes('User rejected the request')` used by
`processRequest` to suppress the failure notification for user rejections. -/
def errIsUserRejection (e : ConsentError) : Bool :=
  strIncludes (errString e) "User rejected the request"

/-- Observable callback invocations: settling a completion handle (its resolve
or reject callback being called) and showing a failure notification. -/
inductive Event where
  | resolved (id : Nat) (value : Option String)
  | rejected (id : Nat) (error : ConsentError)
  | notified
deriving DecidableEq, Repr

/-- The settlement events (resolve/reject callback invocations) that concern a
given request id. -/
def settlementsFor (id : Nat) (evs : List Event) : List Event :=
  evs.filter fun e =>
    match e with
    | .resolved i _ => i = id
    | .rejected i _ => i = id
    | .notified => false

/-- State of the `ConsentService`: the in-memory queue, the completion-handle
registry, the next-id counter, and the persisted store value. -/
structure ServiceState where
  consentRequests : List ConsentRequest
  waits : List Nat
  nextId : Nat
  store : Option (List ConsentRequest)
deriving DecidableEq, Repr

/-- `Map.set` semantics on the wait registry: keep insertion order, append a
new key at the end. -/
def waitsAdd (waits : List Nat) (id : Nat) : List Nat :=
  if id ∈ waits then waits else waits ++ [id]

/-- `consentRequests.map(req => req.id).reduce((maxId, id) => Math.max(maxId, id))`
— the seedless reduce of the constructor; on a non-empty list this is the
maximum id. -/
def lastIdOf : List Nat → Nat
  | [] => 0
  | i :: rest => rest.foldl Nat.max i

/-- The constructor's recovery logic: load the persisted queue; when the key is
absent initialise it to `[]`; when the loaded list is non-empty adopt it and
recompute `nextId` as the last (maximum) id plus one. -/
def initService (persisted : Option (List ConsentRequest)) : ServiceState :=
  match persisted with
  | none => { consentRequests := [], waits := [], nextId := 0, store := some [] }
  | some reqs =>
    if reqs.isEmpty then
      { consentRequests := [], waits := [], nextId := 0, store := some reqs }
    else
      { consentRequests := reqs, waits := [], nextId := lastIdOf (reqs.map (·.id)) + 1,
        store := some reqs }

/-- The insertion index computed by `addRequest`'s backwards scan: one past the
last queue entry of the given type, `none` when no entry of that type exists.
(The source's `index` variable is `0` exactly in the `none` case, since a match
at position `i` yields `i + 1 ≥ 1`.) -/
def lastSameTypeIdx (t : ConsentType) : List ConsentRequest → Option Nat
  | [] => none
  | r :: rs =>
    match lastSameTypeIdx t rs with
    | some i => some (i + 1)
    | none => if r.type = t then some 1 else none

/-- `Array.splice(i, 0, x)` — insert `x` at position `i`. -/
def splice (l : List ConsentRequest) (i : Nat) (x : ConsentRequest) : List ConsentRequest :=
  l.take i ++ x :: l.drop i

/-- `addRequest`: insert after the last entry of the same type when one exists
(`index` truthy), otherwise push at the end; then persist the queue. -/
def addRequest (s : ServiceState) (request : ConsentRequest) : ServiceState :=
  let reqs :=
    match lastSameTypeIdx request.type s.consentRequests with
    | some index => splice s.consentRequests index request
    | none => s.consentRequests ++ [request]
  { s with consentRequests := reqs, store := some reqs }

/-- An account row as `requestConsent` reads it (`WALLET_SERVICE.getChainAccount`). -/
structure ChainAccount where
  masterId : Nat
deriving DecidableEq, Repr

/-- A wallet row as `requestConsent` reads it. -/
structure Wallet where
  walletType : Nat
deriving DecidableEq, Repr

/-- Modelled from the spec: the wallet/account storage collaborator
(`WALLET_SERVICE`) and the `canWalletSign` capability check from `~lib/wallet`,
neither of which is under the embedded sources — lookup of an account, lookup
of its owning wallet, and whether a wallet type's key material can produce
signatures. -/
structure WalletEnv where
  getChainAccount : Nat → Option ChainAccount
  getWallet : Nat → Option Wallet
  canWalletSign : Nat → Bool

/-- The admission gate at the top of `requestConsent`: for `TRANSACTION`,
`SIGN_MSG` and `SIGN_TYPED_DATA`, the account id must be a single id, account
and wallet must resolve (`assert`), and a wallet that cannot sign throws
`userRejectedRequest`; every other type passes. -/
def admissionCheck (env : WalletEnv) (request : ConsentRequestNoId) :
    Except ConsentError Unit :=
  match request.type with
  | .transaction | .signMsg | .signTypedData =>
    match request.accountId with
    | .multi _ => .error .assertionFailed
    | .single accountId =>
      match env.getChainAccount accountId with
      | none => .error .assertionFailed
      | some account =>
        match env.getWallet account.masterId with
        | none => .error .assertionFailed
        | some wallet =>
          if env.canWalletSign wallet.walletType then .ok () else .error .userRejected
  | _ => .ok ()

/-- `requestConsent`: run the admission gate (throwing before any mutation),
then assign `id = nextId++`, insert and persist via `addRequest`, and register
a completion handle when `waitCompleted`. Returns the assigned id and the
value returned to the caller: the awaited promise (identified by the request
id) when `waitCompleted`, `undefined` (`none`) otherwise. -/
def requestConsent (env : WalletEnv) (s : ServiceState) (request : ConsentRequestNoId)
    (waitCompleted : Bool) : ServiceState × Except ConsentError (Nat × Option Nat) :=
  match admissionCheck env request with
  | .error e => (s, .error e)
  | .ok _ =>
    let req := request.withId s.nextId
    let s1 := addRequest { s with nextId := s.nextId + 1 } req
    let s2 := if waitCompleted then { s1 with waits := waitsAdd s1.waits req.id } else s1
    (s2, .ok (req.id, if waitCompleted then some req.id else none))

/-- The ids `clearRequests` removes: all queued ids, or the ids of the entries
of the given type. -/
def clearRemovedIds (s : ServiceState) (type? : Option ConsentType) : List Nat :=
  match type? with
  | none => s.consentRequests.map (·.id)
  | some t => (s.consentRequests.filter (fun r => r.type = t)).map (·.id)

/-- `clearRequests(type?)`: drop every queue entry whose id was removed, reject
(with `userRejectedRequest`) and delete every still-registered wait whose id
was removed, and persist the new queue. -/
def clearRequests (s : ServiceState) (type? : Option ConsentType) :
    ServiceState × List Event :=
  let removedIds := clearRemovedIds s type?
  let reqs := s.consentRequests.filter fun r => ¬ r.id ∈ removedIds
  let events := (s.waits.filter fun id => id ∈ removedIds).map
    fun id => Event.rejected id .userRejected
  let waits := s.waits.filter fun id => ¬ id ∈ removedIds
  ({ s with consentRequests := reqs, waits := waits, store := some reqs }, events)

/-- The failure `processRequestPost` throws when the request id is not queued. -/
inductive PostError where
  | notFound (id : Nat)
deriving DecidableEq, Repr

/-- `processRequestPost`: find the queue entry by id (throwing when absent),
take and delete the completion handle when present, invoke its reject callback
when there is reject data and its resolve callback otherwise, then remove the
queue entry and persist. -/
def processRequestPost (s : ServiceState) (req : ConsentRequest)
    (resolveData : Option String) (rejectData : Option ConsentError) :
    Except PostError (ServiceState × List Event) :=
  match s.consentRequests.findIdx? (fun r => r.id = req.id) with
  | none => .error (.notFound req.id)
  | some index =>
    let waits :=
      if req.id ∈ s.waits then s.waits.filter (fun id => ¬ (id = req.id)) else s.waits
    let events : List Event :=
      if req.id ∈ s.waits then
        match rejectData with
        | some e => [.rejected req.id e]
        | none => [.resolved req.id resolveData]
      else []
    let reqs := s.consentRequests.eraseIdx index
    .ok ({ s with consentRequests := reqs, waits := waits, store := some reqs }, events)

/-- The try-block of `processRequest`: disapproval throws `userRejectedRequest`;
for a `TRANSACTION` the pre-dispatch signing step (`processRequestSignTx`, an
external-collaborator call whose outcome is a parameter) runs first; then the
side-effect dispatch (`processRequestIntermediate`, likewise a parameter)
produces the resolve value. -/
def processOutcome (req : ConsentRequest) (approve : Bool)
    (signTxOutcome : Except ConsentError Unit)
    (intermediateOutcome : Except ConsentError (Option String)) :
    Except ConsentError (Option String) :=
  if approve then
    match req.type with
    | .transaction =>
      match signTxOutcome with
      | .error e => .error e
      | .ok _ => intermediateOutcome
    | _ => intermediateOutcome
  else .error .userRejected

/-- Result of a `processRequest` run: the final state, the observable events in
order, and the error it threw, if any (`processRequestPost` throwing outside
the try-block). -/
structure RunResult where
  state : ServiceState
  events : List Event
  error : Option PostError
deriving DecidableEq, Repr

/-- `processRequest`: compute the try-block outcome; on failure show the
failure notification exactly when the request is a `TRANSACTION` and the error
does not read as a user rejection; finally settle through
`processRequestPost` (resolve data on success, reject data on failure). -/
def processRequest (s : ServiceState) (req : ConsentRequest) (approve : Bool)
    (signTxOutcome : Except ConsentError Unit)
    (intermediateOutcome : Except ConsentError (Option String)) : RunResult :=
  match processOutcome req approve signTxOutcome intermediateOutcome with
  | .ok v =>
    match processRequestPost s req v none with
    | .ok (s', evs) => ⟨s', evs, none⟩
    | .error m => ⟨s, [], some m⟩
  | .error err =>
    let notif : List Event :=
      if req.type = ConsentType.transaction ∧ errIsUserRejection err = false then
        [.notified]
      else []
    match processRequestPost s req none (some err) with
    | .ok (s', evs) => ⟨s', notif ++ evs, none⟩
    | .error m => ⟨s, notif, some m⟩

/-- Token visibility states (`TokenVisibility` in the schema); `shown` stands
for `SHOW`. -/
inductive TokenVisibility where
  | unspecified
  | shown
  | hide
deriving DecidableEq, Repr

/-- A token row of the token registry. -/
structure TokenEntry where
  id : Nat
  account : Nat
  token : String
  visible : TokenVisibility
deriving DecidableEq, Repr

/-- Modelled from the spec: the token/asset visibility bookkeeping collaborator
(`TOKEN_SERVICE`), which is not under the embedded sources — a registry of
token rows keyed by (account, token) with a row-id counter. -/
structure TokenStore where
  tokens : List TokenEntry
  nextTokenId : Nat
deriving DecidableEq, Repr

/-- Modelled from the spec: `TOKEN_SERVICE.getToken({account, token})` — look
up the existing token entry of the account. -/
def getToken (ts : TokenStore) (account : Nat) (token : String) : Option TokenEntry :=
  ts.tokens.find? fun e => e.account = account ∧ e.token = token

/-- Modelled from the spec: `TOKEN_SERVICE.setTokenVisibility(id, v)`. -/
def setTokenVisibility (ts : TokenStore) (id : Nat) (v : TokenVisibility) : TokenStore :=
  { ts with tokens := ts.tokens.map fun e => if e.id = id then { e with visible := v } else e }

/-- Modelled from the spec: `TOKEN_SERVICE.addToken({account, token, info})` —
create the token entry, visible, so that a repeated watch of the same asset is
rejected as already existing. -/
def addToken (ts : TokenStore) (account : Nat) (token : String) : TokenStore :=
  { tokens := ts.tokens ++
      [{ id := ts.nextTokenId, account := account, token := token,
         visible := .shown }],
    nextTokenId := ts.nextTokenId + 1 }

/-- The `WATCH_ASSET` branch of `processRequestIntermediate`: an existing
visible entry throws `invalidRequest('Token already exists')`; an existing
non-visible entry is flipped to visible; an absent entry is created. -/
def watchAssetDispatch (ts : TokenStore) (account : Nat) (token : String) :
    Except ConsentError TokenStore :=
  match getToken ts account token with
  | some existing =>
    if existing.visible = TokenVisibility.shown then
      .error (.invalidRequest "Token already exists")
    else
      .ok (setTokenVisibility ts existing.id .shown)
  | none => .ok (addToken ts account token)

/-- Whether a request passes the admission gate (the gate depends only on the
environment and the request, not on the service state). -/
def admissionOk (env : WalletEnv) (request : ConsentRequestNoId) : Bool :=
  match admissionCheck env request with
  | .ok _ => true
  | .error _ => false

/-- Run a sequence of `requestConsent` calls (each with its `waitCompleted`
flag), collecting the ids assigned to the successfully admitted ones. -/
def runAdmissions (env : WalletEnv) (s : ServiceState) :
    List (ConsentRequestNoId × Bool) → ServiceState × List Nat
  | [] => (s, [])
  | (r, w) :: rest =>
    let (s1, res) := requestConsent env s r w
    let (s2, ids) := runAdmissions env s1 rest
    match res with
    | .ok (id, _) => (s2, id :: ids)
    | .error _ => (s2, ids)

/-! ## Concrete fixtures used by the worked examples and witnesses -/

/-- An environment in which every account resolves and every wallet can sign. -/
def envAll : WalletEnv :=
  { getChainAccount := fun _ => some ⟨0⟩, getWallet := fun _ => some ⟨0⟩,
    canWalletSign := fun _ => true }

/-- An environment in which every wallet is watch-only (cannot sign). -/
def envNoSign : WalletEnv :=
  { getChainAccount := fun _ => some ⟨0⟩, getWallet := fun _ => some ⟨0⟩,
    canWalletSign := fun _ => false }

/-- Request A of the worked example: a `TRANSACTION`. -/
def reqA : ConsentRequestNoId :=
  { networkId := some 1, accountId := .single 1, type := .transaction,
    origin := some "a", payload := "A" }

/-- Request B of the worked example: a `SIGN_MSG`. -/
def reqB : ConsentRequestNoId :=
  { networkId := some 1, accountId := .single 1, type := .signMsg,
    origin := some "b", payload := "B" }

/-- Request C of the worked example: a second `TRANSACTION`. -/
def reqC : ConsentRequestNoId :=
  { networkId := some 1, accountId := .single 1, type := .transaction,
    origin := some "c", payload := "C" }

/-- State after admitting A, B, C (in that order, each awaited) into a fresh
service. -/
def exampleState : ServiceState :=
  (requestConsent envAll
    (requestConsent envAll
      (requestConsent envAll (initService none) reqA true).1 reqB true).1 reqC true).1

/-- A persisted queue holding requests with ids 5, 6 and 7. -/
def restartQueue : List ConsentRequest :=
  [reqA.withId 5, reqB.withId 6, reqC.withId 7]

/-! ## Helper lemmas -/

theorem foldl_max_le_init (l : List Nat) (a : Nat) : a ≤ l.foldl Nat.max a := by
  induction l generalizing a with
  | nil => exact Nat.le_refl a
  | cons b l ih =>
    exact Nat.le_trans (Nat.le_max_left a b) (ih (Nat.max a b))

theorem foldl_max_le_of_mem {l : List Nat} {x : Nat} (a : Nat) (hx : x ∈ l) :
    x ≤ l.foldl Nat.max a := by
  induction l generalizing a with
  | nil => cases hx
  | cons b l ih =>
    rcases List.mem_cons.mp hx with rfl | h
    · exact Nat.le_trans (Nat.le_max_right a x) (foldl_max_le_init l (Nat.max a x))
    · exact ih (Nat.max a b) h

theorem nat_max_cases (a b : Nat) : Nat.max a b = a ∨ Nat.max a b = b :=
  max_choice a b

theorem foldl_max_mem (l : List Nat) (a : Nat) :
    l.foldl Nat.max a = a ∨ l.foldl Nat.max a ∈ l := by
  induction l generalizing a with
  | nil => exact Or.inl rfl
  | cons b l ih =>
    rcases ih (Nat.max a b) with h | h
    · rw [List.foldl_cons, h]
      rcases nat_max_cases a b with hm | hm
      · exact Or.inl hm
      · exact Or.inr (by rw [hm]; exact List.mem_cons_self b l)
    · exact Or.inr (List.mem_cons_of_mem b h)

theorem le_lastIdOf {ids : List Nat} {x : Nat} (hne : ids ≠ []) (hx : x ∈ ids) :
    x ≤ lastIdOf ids := by
  match ids with
  | [] => cases hx
  | i :: rest =>
    rcases List.mem_cons.mp hx with rfl | h
    · exact foldl_max_le_init rest x
    · exact foldl_max_le_of_mem i h

theorem lastIdOf_mem {ids : List Nat} (hne : ids ≠ []) : lastIdOf ids ∈ ids := by
  match ids with
  | [] => exact absurd rfl hne
  | i :: rest =>
    rcases foldl_max_mem rest i with h | h
    · rw [lastIdOf, h]; exact List.mem_cons_self i rest
    · exact List.mem_cons_of_mem i h

theorem findIdx?_id_isSome {l : List ConsentRequest} {x : Nat}
    (h : x ∈ l.map (·.id)) : ∃ i, l.findIdx? (fun r => r.id = x) = some i := by
  cases hf : l.findIdx? (fun r => r.id = x) with
  | some i => exact ⟨i, rfl⟩
  | none =>
    rw [List.findIdx?_eq_none_iff] at hf
    rcases List.mem_map.mp h with ⟨r, hr, hid⟩
    have hfr := hf r hr
    rw [hid] at hfr
    simp at hfr

theorem findIdx?_id_eq_none {l : List ConsentRequest} {x : Nat}
    (h : x ∉ l.map (·.id)) : l.findIdx? (fun r => r.id = x) = none := by
  rw [List.findIdx?_eq_none_iff]
  intro r hr
  simp only [decide_eq_false_iff_not]
  intro hid
  exact h (List.mem_map.mpr ⟨r, hr, hid⟩)

theorem id_not_mem_eraseIdx {l : List ConsentRequest} {x : Nat} {i : Nat}
    (hn : (l.map (·.id)).Nodup)
    (hf : l.findIdx? (fun r => r.id = x) = some i) :
    x ∉ (l.eraseIdx i).map (·.id) := by
  induction l generalizing i with
  | nil => simp at hf
  | cons r rs ih =>
    rw [List.findIdx?_cons] at hf
    rw [List.map_cons, List.nodup_cons] at hn
    by_cases hr : r.id = x
    · simp only [hr, decide_True, if_true, Option.some.injEq] at hf
      subst hf
      rw [List.eraseIdx_cons_zero]
      rw [← hr]
      exact hn.1
    · simp only [hr, decide_False, if_false, List.findIdx?_succ] at hf
      rcases Option.map_eq_some'.mp hf with ⟨j, hj, hij⟩
      subst hij
      rw [List.eraseIdx_cons_succ, List.map_cons]
      intro hmem
      rcases List.mem_cons.mp hmem with heq | hmem'
      · exact hr heq.symm
      · exact ih hn.2 hj hmem'

theorem processRequestPost_ok {s : ServiceState} {req : ConsentRequest} {i : Nat}
    (d : Option String) (r : Option ConsentError)
    (hf : s.consentRequests.findIdx? (fun x => x.id = req.id) = some i) :
    processRequestPost s req d r = .ok
      ({ consentRequests := s.consentRequests.eraseIdx i,
         waits := if req.id ∈ s.waits then s.waits.filter (fun id => ¬ (id = req.id))
                  else s.waits,
         nextId := s.nextId,
         store := some (s.consentRequests.eraseIdx i) },
       if req.id ∈ s.waits then
         match r with
         | some e => [.rejected req.id e]
         | none => [.resolved req.id d]
       else []) := by
  unfold processRequestPost
  rw [hf]

theorem processRequestPost_notFound {s : ServiceState} {req : ConsentRequest}
    (d : Option String) (r : Option ConsentError)
    (h : req.id ∉ s.consentRequests.map (·.id)) :
    processRequestPost s req d r = .error (.notFound req.id) := by
  have hf := findIdx?_id_eq_none h
  unfold processRequestPost
  rw [hf]

theorem processRequestPost_ok_inv {s : ServiceState} {req : ConsentRequest}
    {d : Option String} {r : Option ConsentError} {s' : ServiceState} {evs : List Event}
    (h : processRequestPost s req d r = .ok (s', evs)) :
    ∃ i, s.consentRequests.findIdx? (fun x => x.id = req.id) = some i ∧
      s' = { consentRequests := s.consentRequests.eraseIdx i,
             waits := if req.id ∈ s.waits then s.waits.filter (fun id => ¬ (id = req.id))
                      else s.waits,
             nextId := s.nextId,
             store := some (s.consentRequests.eraseIdx i) } ∧
      evs = (if req.id ∈ s.waits then
               match r with
               | some e => [Event.rejected req.id e]
               | none => [Event.resolved req.id d]
             else []) := by
  cases hf : s.consentRequests.findIdx? (fun x => x.id = req.id) with
  | none =>
    rw [processRequestPost_notFound d r] at h
    · cases h
    · intro hmem
      rcases findIdx?_id_isSome hmem with ⟨i, hi⟩
      rw [hf] at hi
      cases hi
  | some i =>
    rw [processRequestPost_ok d r hf, Except.ok.injEq, Prod.mk.injEq] at h
    exact ⟨i, rfl, h.1.symm, h.2.symm⟩

theorem lastSameTypeIdx_eq_none_iff {t : ConsentType} {l : List ConsentRequest} :
    lastSameTypeIdx t l = none ↔ ∀ r ∈ l, r.type ≠ t := by
  induction l with
  | nil => simp [lastSameTypeIdx]
  | cons r rs ih =>
    rw [lastSameTypeIdx]
    cases hrs : lastSameTypeIdx t rs with
    | some j =>
      show some (j + 1) = none ↔ _
      simp only [reduceCtorEq, false_iff, not_forall]
      have hne : ¬ ∀ x ∈ rs, x.type ≠ t := by
        rw [← ih]
        simp [hrs]
      push_neg at hne
      rcases hne with ⟨x, hx, hxt⟩
      exact ⟨x, List.mem_cons_of_mem r hx, by simp [hxt]⟩
    | none =>
      show (if r.type = t then some 1 else none) = none ↔ _
      by_cases hr : r.type = t
      · rw [if_pos hr]
        simp only [reduceCtorEq, false_iff, not_forall]
        exact ⟨r, List.mem_cons_self r rs, by simp [hr]⟩
      · rw [if_neg hr]
        simp only [true_iff]
        intro x hx
        rcases List.mem_cons.mp hx with rfl | hx'
        · exact hr
        · exact (ih.mp hrs) x hx'

theorem lastSameTypeIdx_append_of_last {t : ConsentType} {l1 l2 : List ConsentRequest}
    {r0 : ConsentRequest} (h2 : ∀ r ∈ l2, r.type ≠ t)
    (hlast : l1.getLast? = some r0) (hr0 : r0.type = t) :
    lastSameTypeIdx t (l1 ++ l2) = some l1.length := by
  induction l1 with
  | nil => cases hlast
  | cons a l1' ih =>
    cases l1' with
    | nil =>
      have ha : a = r0 := by
        simpa using hlast
      subst ha
      rw [List.cons_append, lastSameTypeIdx, List.nil_append,
        lastSameTypeIdx_eq_none_iff.mpr h2]
      show (if a.type = t then some 1 else none) = some 1
      rw [if_pos hr0]
    | cons b l1'' =>
      have hlast' : (b :: l1'').getLast? = some r0 := by
        rw [List.getLast?_cons_cons] at hlast
        exact hlast
      rw [List.cons_append, lastSameTypeIdx, ih hlast']
      rfl

theorem splice_append (l1 l2 : List ConsentRequest) (x : ConsentRequest) :
    splice (l1 ++ l2) l1.length x = l1 ++ x :: l2 := by
  induction l1 with
  | nil => rfl
  | cons a l1' ih =>
    rw [splice] at ih ⊢
    simp only [List.cons_append, List.length_cons, List.take_succ_cons,
      List.drop_succ_cons]
    rw [ih]

theorem mem_splice (l : List ConsentRequest) (i : Nat) (x : ConsentRequest) :
    x ∈ splice l i x := by
  rw [splice]
  exact List.mem_append.mpr (Or.inr (List.mem_cons_self x _))

theorem mem_addRequest (s : ServiceState) (request : ConsentRequest) :
    request ∈ (addRequest s request).consentRequests := by
  rw [addRequest]
  cases h : lastSameTypeIdx request.type s.consentRequests with
  | none => simp
  | some i => simpa using mem_splice s.consentRequests i request

theorem addRequest_nextId (s : ServiceState) (r : ConsentRequest) :
    (addRequest s r).nextId = s.nextId := rfl

theorem addRequest_waits (s : ServiceState) (r : ConsentRequest) :
    (addRequest s r).waits = s.waits := rfl

theorem addRequest_store (s : ServiceState) (r : ConsentRequest) :
    (addRequest s r).store = some (addRequest s r).consentRequests := rfl

theorem requestConsent_error (env : WalletEnv) (s : ServiceState)
    (request : ConsentRequestNoId) (w : Bool) (e : ConsentError)
    (h : admissionCheck env request = .error e) :
    requestConsent env s request w = (s, .error e) := by
  unfold requestConsent
  rw [h]

theorem requestConsent_ok_eq (env : WalletEnv) (s : ServiceState)
    (request : ConsentRequestNoId) (w : Bool)
    (h : admissionCheck env request = .ok ()) :
    requestConsent env s request w =
      (let s1 := addRequest { s with nextId := s.nextId + 1 } (request.withId s.nextId)
       ((if w then { s1 with waits := waitsAdd s1.waits s.nextId } else s1),
        .ok (s.nextId, if w then some s.nextId else none))) := by
  unfold requestConsent
  rw [h]
  rfl

theorem requestConsent_ok_nextId (env : WalletEnv) (s : ServiceState)
    (request : ConsentRequestNoId) (w : Bool)
    (h : admissionCheck env request = .ok ()) :
    (requestConsent env s request w).1.nextId = s.nextId + 1 := by
  rw [requestConsent_ok_eq env s request w h]
  cases w <;> rfl

theorem runAdmissions_spec (env : WalletEnv) (l : List (ConsentRequestNoId × Bool)) :
    ∀ s : ServiceState,
      (runAdmissions env s l).1.nextId =
        s.nextId + (l.countP fun p => admissionOk env p.1) ∧
      (runAdmissions env s l).2 =
        List.range' s.nextId (l.countP fun p => admissionOk env p.1) := by
  induction l with
  | nil =>
    intro s
    simp [runAdmissions]
  | cons p rest ih =>
    intro s
    obtain ⟨r, w⟩ := p
    cases hchk : admissionCheck env r with
    | error e =>
      have hro : admissionOk env r = false := by simp [admissionOk, hchk]
      have hred : runAdmissions env s ((r, w) :: rest) = runAdmissions env s rest := by
        rw [runAdmissions, requestConsent_error env s r w e hchk]
      rw [hred, List.countP_cons]
      simp only [hro, if_false]
      exact ih s
    | ok u =>
      cases u
      have hro : admissionOk env r = true := by simp [admissionOk, hchk]
      have hred : runAdmissions env s ((r, w) :: rest) =
          ((runAdmissions env (requestConsent env s r w).1 rest).1,
           s.nextId :: (runAdmissions env (requestConsent env s r w).1 rest).2) := by
        rw [runAdmissions, requestConsent_ok_eq env s r w hchk]
      have hnext := requestConsent_ok_nextId env s r w hchk
      have h1 := (ih ((requestConsent env s r w).1)).1
      have h2 := (ih ((requestConsent env s r w).1)).2
      constructor
      · rw [hred, List.countP_cons]
        simp only [hro, if_true]
        rw [h1, hnext]
        omega
      · rw [hred, List.countP_cons]
        simp only [hro, if_true]
        rw [List.range'_succ]
        rw [h2, hnext]

theorem clearRequests_queue (s : ServiceState) (t : Option ConsentType) :
    (clearRequests s t).1.consentRequests =
      s.consentRequests.filter (fun r => ¬ r.id ∈ clearRemovedIds s t) := rfl

theorem clearRequests_waits (s : ServiceState) (t : Option ConsentType) :
    (clearRequests s t).1.waits =
      s.waits.filter (fun id => ¬ id ∈ clearRemovedIds s t) := rfl

theorem clearRequests_events (s : ServiceState) (t : Option ConsentType) :
    (clearRequests s t).2 =
      (s.waits.filter (fun id => id ∈ clearRemovedIds s t)).map
        (fun id => Event.rejected id .userRejected) := rfl

theorem mem_clearRemoved_iff {s : ServiceState} {t : ConsentType}
    (hn : (s.consentRequests.map (·.id)).Nodup) {r : ConsentRequest}
    (hr : r ∈ s.consentRequests) :
    r.id ∈ clearRemovedIds s (some t) ↔ r.type = t := by
  constructor
  · intro h
    rcases List.mem_map.mp h with ⟨r', hr', hid⟩
    have hr'mem : r' ∈ s.consentRequests := (List.mem_filter.mp hr').1
    have htype : r'.type = t := by simpa using (List.mem_filter.mp hr').2
    have heq : r' = r := List.inj_on_of_nodup_map hn hr'mem hr hid
    rw [← heq]
    exact htype
  · intro h
    exact List.mem_map.mpr ⟨r, List.mem_filter.mpr ⟨hr, by simpa using h⟩, rfl⟩

/-! ## Claim theorems -/

/-- C3: a `requestConsent` call of type `TRANSACTION`, `SIGN_MSG` or
`SIGN_TYPED_DATA` whose account's owning wallet cannot sign fails immediately
with the user-rejected error, before any queue mutation: the returned state is
the input state, so queue, queue length and persisted store are unchanged and
the request is never queued. -/
theorem unauthorized_short_circuit (env : WalletEnv) (s : ServiceState)
    (request : ConsentRequestNoId) (waitCompleted : Bool) (aid : Nat)
    (acct : ChainAccount) (w : Wallet)
    (htype : request.type = ConsentType.transaction ∨
      request.type = ConsentType.signMsg ∨
      request.type = ConsentType.signTypedData)
    (hacc : request.accountId = AccountId.single aid)
    (hca : env.getChainAccount aid = some acct)
    (hw : env.getWallet acct.masterId = some w)
    (hsign : env.canWalletSign w.walletType = false) :
    requestConsent env s request waitCompleted = (s, .error .userRejected) ∧
    (requestConsent env s request waitCompleted).1.consentRequests =
      s.consentRequests ∧
    (requestConsent env s request waitCompleted).1.store = s.store := by
  have hchk : admissionCheck env request = .error .userRejected := by
    unfold admissionCheck
    rcases htype with h | h | h <;>
      simp only [h, hacc, hca, hw, hsign] <;> rfl
  have hrc := requestConsent_error env s request waitCompleted .userRejected hchk
  exact ⟨hrc, by rw [hrc], by rw [hrc]⟩

theorem unauthorized_short_circuit_witness :
    requestConsent envNoSign (initService none) reqA true =
      (initService none, .error .userRejected) ∧
    (requestConsent envNoSign (initService none) reqA true).1.consentRequests =
      (initService none).consentRequests ∧
    (requestConsent envNoSign (initService none) reqA true).1.store =
      (initService none).store :=
  unauthorized_short_circuit envNoSign (initService none) reqA true 1 ⟨0⟩ ⟨0⟩
    (Or.inl rfl) rfl rfl rfl rfl

/-- C2: assigned ids are strictly increasing and never reused, also across a
restart: a successful `requestConsent` assigns `id = nextId` and bumps the
counter; `clearRequests` and `processRequestPost` never change the counter; on
startup from a non-empty persisted queue the counter is recomputed as
`max(existing ids) + 1` (one more than some stored id and strictly above every
stored id), and it is `0` for an absent or empty persisted queue; restoring a
queue with ids `[5, 6, 7]` makes the next admitted request receive id `8`. -/
theorem id_monotonic_across_restart :
    (∀ reqs : List ConsentRequest, reqs ≠ [] →
      (∀ r ∈ reqs, r.id < (initService (some reqs)).nextId) ∧
      (∃ r ∈ reqs, (initService (some reqs)).nextId = r.id + 1)) ∧
    (initService none).nextId = 0 ∧
    (initService (some [])).nextId = 0 ∧
    (∀ env s request w id ret,
      (requestConsent env s request w).2 = .ok (id, ret) →
      id = s.nextId ∧ (requestConsent env s request w).1.nextId = s.nextId + 1) ∧
    (∀ s t, (clearRequests s t).1.nextId = s.nextId) ∧
    (∀ s req d r s' evs, processRequestPost s req d r = .ok (s', evs) →
      s'.nextId = s.nextId) ∧
    (requestConsent envAll (initService (some restartQueue)) reqA true).2 =
      .ok (8, some 8) := by
  refine ⟨?_, rfl, rfl, ?_, ?_, ?_, rfl⟩
  · intro reqs hne
    have hE : reqs.isEmpty = false := by
      cases hEE : reqs.isEmpty with
      | false => rfl
      | true => exact absurd (List.isEmpty_iff.mp hEE) hne
    have hinit : (initService (some reqs)).nextId = lastIdOf (reqs.map (·.id)) + 1 := by
      simp [initService, hE]
    have hmapne : reqs.map (·.id) ≠ [] := by
      cases reqs with
      | nil => exact absurd rfl hne
      | cons a l => simp
    constructor
    · intro r hr
      rw [hinit]
      have hle : r.id ≤ lastIdOf (reqs.map (·.id)) :=
        le_lastIdOf hmapne (List.mem_map.mpr ⟨r, hr, rfl⟩)
      omega
    · rcases List.mem_map.mp (lastIdOf_mem hmapne) with ⟨r, hr, hid⟩
      exact ⟨r, hr, by rw [hinit, hid]⟩
  · intro env s request w id ret h
    cases hchk : admissionCheck env request with
    | error e =>
      rw [requestConsent_error env s request w e hchk] at h
      cases h
    | ok u =>
      cases u
      rw [requestConsent_ok_eq env s request w hchk] at h
      simp only [Except.ok.injEq, Prod.mk.injEq] at h
      exact ⟨h.1.symm, requestConsent_ok_nextId env s request w hchk⟩
  · intro s t
    rfl
  · intro s req d r s' evs h
    rcases processRequestPost_ok_inv h with ⟨i, _, hs', _⟩
    rw [hs']

theorem id_monotonic_across_restart_witness :
    (0 : Nat) = (initService none).nextId ∧
    (requestConsent envAll (initService none) reqA true).1.nextId =
      (initService none).nextId + 1 :=
  id_monotonic_across_restart.2.2.2.1 envAll (initService none) reqA true 0
    (some 0) rfl

/-- C10: a `requestConsent` call rejected by the admission gate returns the
state unchanged — in particular the next-id counter — so admission failures
consume no ids, and over any sequence of `requestConsent` calls the ids
assigned to the successfully admitted ones are the consecutive integers
starting at the initial counter value. -/
theorem admission_failure_consumes_no_id :
    (∀ env s request w e, admissionCheck env request = .error e →
      requestConsent env s request w = (s, .error e)) ∧
    (∀ env s l, (runAdmissions env s l).2 =
      List.range' s.nextId (l.countP fun p => admissionOk env p.1)) :=
  ⟨fun env s request w e h => requestConsent_error env s request w e h,
   fun env s l => (runAdmissions_spec env l s).2⟩

theorem admission_failure_consumes_no_id_witness :
    requestConsent envNoSign (initService none) reqA true =
      (initService none, .error .userRejected) ∧
    (runAdmissions envAll (initService none) [(reqA, true), (reqB, false)]).2 =
      List.range' (initService none).nextId 2 :=
  ⟨admission_failure_consumes_no_id.1 envNoSign (initService none) reqA true
      .userRejected rfl,
   admission_failure_consumes_no_id.2 envAll (initService none)
      [(reqA, true), (reqB, false)]⟩

/-- C4: an admitted request is inserted immediately after the last queued
request of the same type, and appended at the end when no request of its type
is queued; admitting A (`TRANSACTION`), B (`SIGN_MSG`), C (`TRANSACTION`) in
that order (ids 0, 1, 2) yields the queue [A, C, B] (ids `[0, 2, 1]`). -/
theorem type_grouping_insertion :
    (∀ s request, (∀ r ∈ s.consentRequests, r.type ≠ request.type) →
      (addRequest s request).consentRequests = s.consentRequests ++ [request]) ∧
    (∀ s (request : ConsentRequest) l1 l2 r0,
      s.consentRequests = l1 ++ l2 →
      l1.getLast? = some r0 →
      r0.type = request.type →
      (∀ r ∈ l2, r.type ≠ request.type) →
      (addRequest s request).consentRequests = l1 ++ request :: l2) ∧
    (exampleState.consentRequests.map (·.id) = [0, 2, 1] ∧
     exampleState.consentRequests.map (·.type) =
       [ConsentType.transaction, ConsentType.transaction, ConsentType.signMsg]) := by
  refine ⟨?_, ?_, rfl, rfl⟩
  · intro s request h
    show (match lastSameTypeIdx request.type s.consentRequests with
          | some index => splice s.consentRequests index request
          | none => s.consentRequests ++ [request]) = s.consentRequests ++ [request]
    rw [lastSameTypeIdx_eq_none_iff.mpr h]
  · intro s request l1 l2 r0 hdecomp hlast hr0 h2
    have hidx : lastSameTypeIdx request.type s.consentRequests = some l1.length := by
      rw [hdecomp]
      exact lastSameTypeIdx_append_of_last h2 hlast hr0
    show (match lastSameTypeIdx request.type s.consentRequests with
          | some index => splice s.consentRequests index request
          | none => s.consentRequests ++ [request]) = l1 ++ request :: l2
    rw [hidx]
    show splice s.consentRequests l1.length request = l1 ++ request :: l2
    rw [hdecomp, splice_append]

theorem type_grouping_insertion_witness :
    (addRequest (initService none) (reqA.withId 0)).consentRequests =
      (initService none).consentRequests ++ [reqA.withId 0] :=
  type_grouping_insertion.1 (initService none) (reqA.withId 0) (by decide)

/-- C5: `clearRequests (some t)` removes from the queue exactly the requests of
type `t` (and `clearRequests none` removes all), rejects every removed
request's still-pending completion handle with the user-rejected error, and
leaves every non-matching request queued and pending with no settlement event;
on the queue [A(TX), B(SIGN_MSG), C(TX)] it leaves [B], rejects A's and C's
handles, and B's handle stays registered. -/
theorem bulk_clear_correctness :
    (∀ s t, (s.consentRequests.map (·.id)).Nodup →
      ((clearRequests s (some t)).1.consentRequests =
        s.consentRequests.filter (fun r => ¬ r.type = t)) ∧
      (∀ r ∈ s.consentRequests, r.type = t → r.id ∈ s.waits →
        Event.rejected r.id ConsentError.userRejected ∈ (clearRequests s (some t)).2 ∧
        r.id ∉ (clearRequests s (some t)).1.waits) ∧
      (∀ r ∈ s.consentRequests, ¬ r.type = t →
        r ∈ (clearRequests s (some t)).1.consentRequests ∧
        (r.id ∈ s.waits → r.id ∈ (clearRequests s (some t)).1.waits) ∧
        settlementsFor r.id (clearRequests s (some t)).2 = [])) ∧
    (∀ s, (∀ id ∈ s.waits, id ∈ s.consentRequests.map (·.id)) →
      (clearRequests s none).1.consentRequests = [] ∧
      (clearRequests s none).2 =
        s.waits.map (fun id => Event.rejected id .userRejected)) ∧
    ((clearRequests exampleState (some .transaction)).1.consentRequests.map (·.id) =
       [1] ∧
     (clearRequests exampleState (some .transaction)).2 =
       [Event.rejected 0 .userRejected, Event.rejected 2 .userRejected] ∧
     1 ∈ (clearRequests exampleState (some .transaction)).1.waits) := by
  refine ⟨?_, ?_, rfl, rfl, by decide⟩
  · intro s t hn
    refine ⟨?_, ?_, ?_⟩
    · rw [clearRequests_queue]
      apply List.filter_congr
      intro r hr
      have hiff := @mem_clearRemoved_iff s t hn r hr
      by_cases hm : r.id ∈ clearRemovedIds s (some t)
      · simp [hm, hiff.mp hm]
      · have : ¬ r.type = t := fun h => hm (hiff.mpr h)
        simp [hm, this]
    · intro r hr htype hwait
      have hm : r.id ∈ clearRemovedIds s (some t) := (mem_clearRemoved_iff hn hr).mpr htype
      constructor
      · rw [clearRequests_events]
        exact List.mem_map.mpr
          ⟨r.id, List.mem_filter.mpr ⟨hwait, by simpa using hm⟩, rfl⟩
      · rw [clearRequests_waits]
        intro hmem
        exact (by simpa using (List.mem_filter.mp hmem).2 : ¬ r.id ∈ clearRemovedIds s (some t)) hm
    · intro r hr htype
      have hm : ¬ r.id ∈ clearRemovedIds s (some t) := fun h =>
        htype ((mem_clearRemoved_iff hn hr).mp h)
      refine ⟨?_, ?_, ?_⟩
      · rw [clearRequests_queue]
        exact List.mem_filter.mpr ⟨hr, by simpa using hm⟩
      · intro hwait
        rw [clearRequests_waits]
        exact List.mem_filter.mpr ⟨hwait, by simpa using hm⟩
      · rw [clearRequests_events, settlementsFor, List.filter_eq_nil_iff]
        intro e he
        rcases List.mem_map.mp he with ⟨id, hid, hev⟩
        have hidr : id ∈ clearRemovedIds s (some t) := by
          simpa using (List.mem_filter.mp hid).2
        rw [← hev]
        simp only [decide_eq_true_eq]
        intro heq
        rw [heq] at hidr
        exact hm hidr
  · intro s hw
    constructor
    · rw [clearRequests_queue, List.filter_eq_nil_iff]
      intro r hr
      simp only [decide_eq_true_eq, Decidable.not_not]
      show r.id ∈ clearRemovedIds s none
      exact List.mem_map.mpr ⟨r, hr, rfl⟩
    · rw [clearRequests_events]
      have : s.waits.filter (fun id => id ∈ clearRemovedIds s none) = s.waits :=
        List.filter_eq_self.mpr fun id hid => by
          simp only [decide_eq_true_eq]
          exact hw id hid
      rw [this]

theorem bulk_clear_correctness_witness :
    Event.rejected 0 ConsentError.userRejected ∈
      (clearRequests exampleState (some .transaction)).2 ∧
    0 ∉ (clearRequests exampleState (some .transaction)).1.waits :=
  (bulk_clear_correctness.1 exampleState ConsentType.transaction (by decide)).2.1
    (reqA.withId 0) (by decide) rfl (by decide)

theorem getToken_setTokenVisibility {ts : TokenStore} {a : Nat} {t : String}
    {e : TokenEntry} (v : TokenVisibility) (hget : getToken ts a t = some e) :
    getToken (setTokenVisibility ts e.id v) a t = some { e with visible := v } := by
  show (ts.tokens.map fun x : TokenEntry =>
      if x.id = e.id then { x with visible := v } else x).find?
        (fun x => x.account = a ∧ x.token = t) = some { e with visible := v }
  rw [List.find?_map]
  have hp : ((fun x : TokenEntry => decide (x.account = a ∧ x.token = t)) ∘
      (fun x : TokenEntry => if x.id = e.id then { x with visible := v } else x)) =
      (fun x : TokenEntry => decide (x.account = a ∧ x.token = t)) := by
    funext x
    by_cases hx : x.id = e.id <;> simp [hx]
  rw [hp]
  unfold getToken at hget
  rw [hget]
  simp

theorem getToken_addToken {ts : TokenStore} {a : Nat} {t : String}
    (hn : getToken ts a t = none) :
    getToken (addToken ts a t) a t =
      some { id := ts.nextTokenId, account := a, token := t,
             visible := TokenVisibility.shown } := by
  show (ts.tokens ++
      ([{ id := ts.nextTokenId, account := a, token := t,
          visible := TokenVisibility.shown }] : List TokenEntry)).find?
        (fun x : TokenEntry => x.account = a ∧ x.token = t) = _
  rw [List.find?_append]
  unfold getToken at hn
  rw [hn]
  simp

theorem countP_addToken {ts : TokenStore} {a : Nat} {t : String}
    (hn : getToken ts a t = none) :
    ((addToken ts a t).tokens.countP fun e => e.account = a ∧ e.token = t) = 1 := by
  show ((ts.tokens ++
      ([{ id := ts.nextTokenId, account := a, token := t,
          visible := TokenVisibility.shown }] : List TokenEntry)).countP
        (fun e : TokenEntry => decide (e.account = a ∧ e.token = t))) = 1
  rw [List.countP_append]
  unfold getToken at hn
  have h0 : ts.tokens.countP (fun e => decide (e.account = a ∧ e.token = t)) = 0 := by
    rw [List.countP_eq_zero]
    intro x hx
    have hfx := List.find?_eq_none.mp hn x hx
    simpa using hfx
  rw [h0]
  simp [List.countP_cons]

/-- C7: the `WATCH_ASSET` dispatch fails with `InvalidRequest` when a visible
token entry already exists, flips an existing hidden entry to visible, and
creates the entry when absent — so a second run for the same token after a
first run created it yields `InvalidRequest`, never a duplicate entry. -/
theorem watch_asset_idempotence :
    (∀ ts a t e, getToken ts a t = some e → e.visible = TokenVisibility.shown →
      watchAssetDispatch ts a t = .error (.invalidRequest "Token already exists")) ∧
    (∀ ts a t e, getToken ts a t = some e → e.visible = TokenVisibility.hide →
      watchAssetDispatch ts a t = .ok (setTokenVisibility ts e.id .shown) ∧
      getToken (setTokenVisibility ts e.id .shown) a t =
        some { e with visible := TokenVisibility.shown }) ∧
    (∀ ts a t, getToken ts a t = none →
      watchAssetDispatch ts a t = .ok (addToken ts a t) ∧
      getToken (addToken ts a t) a t =
        some { id := ts.nextTokenId, account := a, token := t,
               visible := TokenVisibility.shown } ∧
      watchAssetDispatch (addToken ts a t) a t =
        .error (.invalidRequest "Token already exists") ∧
      ((addToken ts a t).tokens.countP fun e => e.account = a ∧ e.token = t) = 1) := by
  refine ⟨?_, ?_, ?_⟩
  · intro ts a t e hget hvis
    unfold watchAssetDispatch
    rw [hget]
    simp [hvis]
  · intro ts a t e hget hvis
    refine ⟨?_, getToken_setTokenVisibility _ hget⟩
    unfold watchAssetDispatch
    rw [hget]
    simp [hvis]
  · intro ts a t hn
    have hadd : watchAssetDispatch ts a t = .ok (addToken ts a t) := by
      unfold watchAssetDispatch
      rw [hn]
    have hget2 := getToken_addToken hn
    refine ⟨hadd, hget2, ?_, countP_addToken hn⟩
    unfold watchAssetDispatch
    rw [hget2]
    simp

theorem watch_asset_idempotence_witness :
    watchAssetDispatch ⟨[], 0⟩ 7 "tok" = .ok (addToken ⟨[], 0⟩ 7 "tok") ∧
    getToken (addToken ⟨[], 0⟩ 7 "tok") 7 "tok" =
      some { id := 0, account := 7, token := "tok",
             visible := TokenVisibility.shown } ∧
    watchAssetDispatch (addToken ⟨[], 0⟩ 7 "tok") 7 "tok" =
      .error (.invalidRequest "Token already exists") ∧
    ((addToken ⟨[], 0⟩ 7 "tok").tokens.countP
      fun e => e.account = 7 ∧ e.token = "tok") = 1 :=
  watch_asset_idempotence.2.2 ⟨[], 0⟩ 7 "tok" rfl

theorem processRequest_eq_ok (s : ServiceState) (req : ConsentRequest)
    (approve : Bool) (so : Except ConsentError Unit)
    (io : Except ConsentError (Option String)) (v : Option String)
    (h : processOutcome req approve so io = .ok v) :
    processRequest s req approve so io =
      (match processRequestPost s req v none with
       | .ok (s', evs) => ⟨s', evs, none⟩
       | .error m => ⟨s, [], some m⟩) := by
  unfold processRequest
  rw [h]

theorem processRequest_eq_error (s : ServiceState) (req : ConsentRequest)
    (approve : Bool) (so : Except ConsentError Unit)
    (io : Except ConsentError (Option String)) (e : ConsentError)
    (h : processOutcome req approve so io = .error e) :
    processRequest s req approve so io =
      (match processRequestPost s req none (some e) with
       | .ok (s', evs) =>
         ⟨s', (if req.type = ConsentType.transaction ∧ errIsUserRejection e = false
               then [Event.notified] else []) ++ evs, none⟩
       | .error m =>
         ⟨s, (if req.type = ConsentType.transaction ∧ errIsUserRejection e = false
              then [Event.notified] else []), some m⟩) := by
  unfold processRequest
  rw [h]

theorem processRequestPost_no_notified {s : ServiceState} {req : ConsentRequest}
    {d : Option String} {r : Option ConsentError} {s' : ServiceState}
    {evs : List Event} (h : processRequestPost s req d r = .ok (s', evs)) :
    Event.notified ∉ evs := by
  rcases processRequestPost_ok_inv h with ⟨i, _, _, hevs⟩
  rw [hevs]
  by_cases hw : req.id ∈ s.waits
  · rw [if_pos hw]
    cases r <;> simp
  · rw [if_neg hw]
    simp

/-- C8: when a `processRequest` run fails, a failure notification is shown if
and only if the request's type is `TRANSACTION` and the failure does not read
as a user rejection; a successful run never shows one. -/
theorem failure_notification_policy (s : ServiceState) (req : ConsentRequest)
    (approve : Bool) (so : Except ConsentError Unit)
    (io : Except ConsentError (Option String)) :
    (∀ v, processOutcome req approve so io = .ok v →
      Event.notified ∉ (processRequest s req approve so io).events) ∧
    (∀ e, processOutcome req approve so io = .error e →
      (Event.notified ∈ (processRequest s req approve so io).events ↔
        req.type = ConsentType.transaction ∧ errIsUserRejection e = false)) := by
  constructor
  · intro v hv
    rw [processRequest_eq_ok s req approve so io v hv]
    cases hp : processRequestPost s req v none with
    | ok p =>
      obtain ⟨s', evs⟩ := p
      show Event.notified ∉ evs
      exact processRequestPost_no_notified hp
    | error m =>
      show Event.notified ∉ ([] : List Event)
      simp
  · intro e he
    rw [processRequest_eq_error s req approve so io e he]
    cases hp : processRequestPost s req none (some e) with
    | ok p =>
      obtain ⟨s', evs⟩ := p
      show Event.notified ∈
        (if req.type = ConsentType.transaction ∧ errIsUserRejection e = false then
          [Event.notified] else []) ++ evs ↔ _
      have hne := processRequestPost_no_notified hp
      by_cases hc : req.type = ConsentType.transaction ∧ errIsUserRejection e = false
      · rw [if_pos hc]
        simp [hc]
      · rw [if_neg hc]
        simp [hne, hc]
    | error m =>
      show Event.notified ∈
        (if req.type = ConsentType.transaction ∧ errIsUserRejection e = false then
          [Event.notified] else []) ↔ _
      by_cases hc : req.type = ConsentType.transaction ∧ errIsUserRejection e = false
      · rw [if_pos hc]
        simp [hc]
      · rw [if_neg hc]
        simp [hc]

theorem failure_notification_policy_witness :
    Event.notified ∈
      (processRequest exampleState (reqA.withId 0) false (.ok ()) (.ok none)).events ↔
    (reqA.withId 0).type = ConsentType.transaction ∧
      errIsUserRejection .userRejected = false :=
  (failure_notification_policy exampleState (reqA.withId 0) false (.ok ())
    (.ok none)).2 .userRejected rfl

theorem processRequestPost_no_wait {s : ServiceState} {req : ConsentRequest}
    (d : Option String) (r : Option ConsentError)
    (hmem : req.id ∈ s.consentRequests.map (·.id)) (hnw : req.id ∉ s.waits) :
    (processRequestPost s req d r).toOption.map Prod.snd = some [] := by
  obtain ⟨i, hf⟩ := findIdx?_id_isSome hmem
  rw [processRequestPost_ok d r hf]
  rw [if_neg hnw, if_neg hnw]
  rfl

theorem settlementsFor_clear_not_wait {s : ServiceState} {x : Nat}
    (t : Option ConsentType) (hnw : x ∉ s.waits) :
    settlementsFor x (clearRequests s t).2 = [] := by
  rw [clearRequests_events, settlementsFor, List.filter_eq_nil_iff]
  intro e he
  rcases List.mem_map.mp he with ⟨id, hid, hev⟩
  rw [← hev]
  simp only [decide_eq_true_eq]
  intro heq
  rw [heq] at hid
  exact hnw (List.mem_filter.mp hid).1

/-- C6: `processRequest` on a request still queued and pending never throws,
removes the queue entry and persists the removal regardless of outcome, and
settles the completion handle: disapproval rejects with the user-rejected
error, a signing or dispatch failure rejects with that failure, and a
successful run resolves with the dispatch result. -/
theorem settlement_removes_queue_entry (s : ServiceState) (req : ConsentRequest)
    (approve : Bool) (so : Except ConsentError Unit)
    (io : Except ConsentError (Option String))
    (hmem : req.id ∈ s.consentRequests.map (·.id))
    (hn : (s.consentRequests.map (·.id)).Nodup) :
    (processRequest s req approve so io).error = none ∧
    req.id ∉ (processRequest s req approve so io).state.consentRequests.map (·.id) ∧
    (processRequest s req approve so io).state.store =
      some (processRequest s req approve so io).state.consentRequests ∧
    (approve = false → req.id ∈ s.waits →
      Event.rejected req.id ConsentError.userRejected ∈
        (processRequest s req approve so io).events) ∧
    (∀ v, processOutcome req approve so io = .ok v → req.id ∈ s.waits →
      Event.resolved req.id v ∈ (processRequest s req approve so io).events) ∧
    (∀ e, processOutcome req approve so io = .error e → req.id ∈ s.waits →
      Event.rejected req.id e ∈ (processRequest s req approve so io).events) := by
  obtain ⟨i, hf⟩ := findIdx?_id_isSome hmem
  cases ho : processOutcome req approve so io with
  | ok v =>
    rw [processRequest_eq_ok s req approve so io v ho,
      processRequestPost_ok v none hf]
    refine ⟨rfl, ?_, rfl, ?_, ?_, ?_⟩
    · exact id_not_mem_eraseIdx hn hf
    · intro hap hw
      rw [hap] at ho
      simp [processOutcome] at ho
    · intro v' hv' hw
      injection hv' with hvv
      subst hvv
      show Event.resolved req.id v ∈
        (if req.id ∈ s.waits then [Event.resolved req.id v] else [])
      rw [if_pos hw]
      exact List.mem_singleton.mpr rfl
    · intro e' he' hw
      exact Except.noConfusion he'
  | error e =>
    rw [processRequest_eq_error s req approve so io e ho,
      processRequestPost_ok none (some e) hf]
    refine ⟨rfl, ?_, rfl, ?_, ?_, ?_⟩
    · exact id_not_mem_eraseIdx hn hf
    · intro hap hw
      rw [hap] at ho
      have hee : ConsentError.userRejected = e := by
        simpa [processOutcome] using ho
      subst hee
      show Event.rejected req.id ConsentError.userRejected ∈
        _ ++ (if req.id ∈ s.waits then [Event.rejected req.id ConsentError.userRejected]
              else [])
      rw [if_pos hw]
      exact List.mem_append.mpr (Or.inr (List.mem_singleton.mpr rfl))
    · intro v hv hw
      exact Except.noConfusion hv
    · intro e' he' hw
      injection he' with hee
      subst hee
      show Event.rejected req.id e ∈
        _ ++ (if req.id ∈ s.waits then [Event.rejected req.id e] else [])
      rw [if_pos hw]
      exact List.mem_append.mpr (Or.inr (List.mem_singleton.mpr rfl))

theorem settlement_removes_queue_entry_witness :
    (processRequest exampleState (reqA.withId 0) true (.ok ())
      (.ok (some "h"))).error = none ∧
    Event.resolved 0 (some "h") ∈
      (processRequest exampleState (reqA.withId 0) true (.ok ())
        (.ok (some "h"))).events :=
  ⟨(settlement_removes_queue_entry exampleState (reqA.withId 0) true (.ok ())
      (.ok (some "h")) (by decide) (by decide)).1,
   (settlement_removes_queue_entry exampleState (reqA.withId 0) true (.ok ())
      (.ok (some "h")) (by decide) (by decide)).2.2.2.2.1
      (some "h") rfl (by decide)⟩

/-- C9: `requestConsent` with `waitCompleted = false` still admits, assigns the
id, queues and persists the request, but registers no completion handle and
returns `undefined` (`none`); a later settlement of that request finds no
handle and invokes neither a resolve nor a reject callback for it. -/
theorem fire_and_forget_no_handle (env : WalletEnv) (s : ServiceState)
    (request : ConsentRequestNoId)
    (hok : admissionCheck env request = .ok ())
    (hnw : s.nextId ∉ s.waits) :
    (requestConsent env s request false).2 = .ok (s.nextId, none) ∧
    (requestConsent env s request false).1.waits = s.waits ∧
    request.withId s.nextId ∈ (requestConsent env s request false).1.consentRequests ∧
    (requestConsent env s request false).1.store =
      some (requestConsent env s request false).1.consentRequests ∧
    (∀ d r, (processRequestPost (requestConsent env s request false).1
        (request.withId s.nextId) d r).toOption.map Prod.snd = some []) ∧
    (∀ t, settlementsFor s.nextId
        (clearRequests (requestConsent env s request false).1 t).2 = []) := by
  have h1 : requestConsent env s request false =
      (addRequest { s with nextId := s.nextId + 1 } (request.withId s.nextId),
       .ok (s.nextId, none)) := by
    rw [requestConsent_ok_eq env s request false hok]
    rfl
  rw [h1]
  refine ⟨rfl, rfl, mem_addRequest _ _, addRequest_store _ _, ?_, ?_⟩
  · intro d r
    apply processRequestPost_no_wait d r
    · exact List.mem_map.mpr ⟨request.withId s.nextId, mem_addRequest _ _, rfl⟩
    · exact hnw
  · intro t
    exact settlementsFor_clear_not_wait t hnw

theorem fire_and_forget_no_handle_witness :
    (requestConsent envAll (initService none) reqB false).2 =
      .ok ((initService none).nextId, none) ∧
    (requestConsent envAll (initService none) reqB false).1.waits =
      (initService none).waits :=
  ⟨(fire_and_forget_no_handle envAll (initService none) reqB rfl (by decide)).1,
   (fire_and_forget_no_handle envAll (initService none) reqB rfl (by decide)).2.1⟩

/-- The state after `processRequestPost` has settled request 0 of
`exampleState` (used by the C1 witness). -/
def settledOnceState : ServiceState :=
  { consentRequests := [reqC.withId 2, reqB.withId 1],
    waits := [1, 2], nextId := 3,
    store := some [reqC.withId 2, reqB.withId 1] }

/-- C1: settlement is at-most-once per request id. After a first settlement
through `processRequestPost` (on a queue without duplicate ids), a second
`processRequestPost` on the same id throws `not found`, and neither
`clearRequests` nor a further `processRequest` run invokes the handle's
resolve or reject callback for that id again; likewise after a request is
settled by `clearRequests`. -/
theorem at_most_once_settlement :
    (∀ (s : ServiceState) (req : ConsentRequest) (d : Option String)
       (r : Option ConsentError) (s' : ServiceState) (evs : List Event),
      (s.consentRequests.map (·.id)).Nodup →
      processRequestPost s req d r = .ok (s', evs) →
      (∀ d' r', processRequestPost s' req d' r' = .error (.notFound req.id)) ∧
      (∀ t, settlementsFor req.id (clearRequests s' t).2 = []) ∧
      (∀ approve so io,
        settlementsFor req.id (processRequest s' req approve so io).events = [])) ∧
    (∀ (s : ServiceState) (t : Option ConsentType) (req : ConsentRequest),
      req.id ∈ clearRemovedIds s t →
      (∀ d' r', processRequestPost (clearRequests s t).1 req d' r' =
        .error (.notFound req.id)) ∧
      (∀ t', settlementsFor req.id (clearRequests (clearRequests s t).1 t').2 = [])) := by
  constructor
  · intro s req d r s' evs hn hpost
    rcases processRequestPost_ok_inv hpost with ⟨i, hf, hs', hevs⟩
    have hnotmem : req.id ∉ s'.consentRequests.map (·.id) := by
      rw [hs']
      exact id_not_mem_eraseIdx hn hf
    have hnw : req.id ∉ s'.waits := by
      rw [hs']
      by_cases hw : req.id ∈ s.waits
      · rw [if_pos hw]
        intro hmem
        have := (List.mem_filter.mp hmem).2
        simp at this
      · rw [if_neg hw]
        exact hw
    refine ⟨?_, ?_, ?_⟩
    · intro d' r'
      exact processRequestPost_notFound d' r' hnotmem
    · intro t
      exact settlementsFor_clear_not_wait t hnw
    · intro approve so io
      cases ho : processOutcome req approve so io with
      | ok v =>
        rw [processRequest_eq_ok s' req approve so io v ho,
          processRequestPost_notFound v none hnotmem]
        rfl
      | error e =>
        rw [processRequest_eq_error s' req approve so io e ho,
          processRequestPost_notFound none (some e) hnotmem]
        show settlementsFor req.id
          (if req.type = ConsentType.transaction ∧ errIsUserRejection e = false then
            [Event.notified] else []) = []
        by_cases hc : req.type = ConsentType.transaction ∧ errIsUserRejection e = false
        · rw [if_pos hc]
          rfl
        · rw [if_neg hc]
          rfl
  · intro s t req hrem
    have hq : req.id ∉ (clearRequests s t).1.consentRequests.map (·.id) := by
      rw [clearRequests_queue]
      intro hmem
      rcases List.mem_map.mp hmem with ⟨r', hr', hid⟩
      have hf' := (List.mem_filter.mp hr').2
      simp only [decide_eq_true_eq] at hf'
      rw [hid] at hf'
      exact hf' hrem
    have hnw : req.id ∉ (clearRequests s t).1.waits := by
      rw [clearRequests_waits]
      intro hmem
      have hf' := (List.mem_filter.mp hmem).2
      simp only [decide_eq_true_eq] at hf'
      exact hf' hrem
    exact ⟨fun d' r' => processRequestPost_notFound d' r' hq,
           fun t' => settlementsFor_clear_not_wait t' hnw⟩

theorem at_most_once_settlement_witness :
    processRequestPost settledOnceState (reqA.withId 0) none none =
      .error (.notFound 0) ∧
    settlementsFor 0 (clearRequests settledOnceState none).2 = [] :=
  have h := at_most_once_settlement.1 exampleState (reqA.withId 0) none none
    settledOnceState [Event.resolved 0 none] (by decide) (by rfl)
  ⟨h.1 none none, h.2.1 none⟩
